import Mathlib

/-!
Verification of the `survival` crawl/enrich/export pipeline.

This file gives a shallow embedding of the repository's core logic:

* `src/survival/x.py` — the crawl engine (`crawl`): cursor updates,
  rate-limit-adaptive sleeping, error handling, step emission;
* `src/survival/cli.py` — the CLI handlers `x_crawl` (resume-from-log scan and
  per-step log append) and `x_enrich_crawl` (two-pass author enrichment);
* `src/survival/convert.py` — `flatten_dict` and `jsonl_to_csv`.

Modelling conventions:

* JSON values (`json.loads` results) are the inductive `JsonV`; Python dicts
  are ordered association lists with unique keys, `objGet?`/`objSet` model
  `d.get(k)` / `d[k] = v` (insertion order preserved, in-place update).
* A line of a JSONL file is a `Line`: either `malformed` (a line on which
  `json.loads` raises `JSONDecodeError`) or `val v` for the parsed value.
* Clock times and durations are integer seconds (`time.time()`, `time.sleep`).
  `time.sleep` raises `ValueError` on a negative argument; the crawl loop's
  `except` clause catches that like any other exception.
* Python exceptions other than `JSONDecodeError` are the error type `PyErr`;
  functions that can raise return `Except PyErr _`.
* Python `str()` of numbers/None/booleans is modelled exactly; `str()` of
  nested containers is approximated without escape handling (no claim
  depends on it).
* Python's equality collapsing of `bool`/`int` (`1 == True`) is not modelled;
  no record in the claims' scope mixes those.
-/

namespace Survival

/-- JSON values as produced by `json.loads`; numbers are modelled as integers
(the repository only manipulates identifiers, counts and unix timestamps). -/
inductive JsonV where
  | null
  | bool (b : Bool)
  | num (n : Int)
  | str (s : String)
  | arr (elems : List JsonV)
  | obj (fields : List (String × JsonV))

/-- A Python dict built from JSON: ordered association list, unique keys. -/
abbrev Obj := List (String × JsonV)

/-- Python `d.get(key)` / `key in d`: first (only) binding of `key`. -/
def objGet? : Obj → String → Option JsonV
  | [], _ => none
  | (k, v) :: rest, key => if k = key then some v else objGet? rest key

/-- Python `d.get(key, default)`. -/
def objGetD (o : Obj) (key : String) (d : JsonV) : JsonV :=
  (objGet? o key).getD d

/-- Python `d[key] = v`: update in place if the key exists (keeping its
position), else append at the end (dict insertion order). -/
def objSet : Obj → String → JsonV → Obj
  | [], key, v => [(key, v)]
  | (k, w) :: rest, key, v =>
      if k = key then (k, v) :: rest else (k, w) :: objSet rest key v

/-- Python `data.get('type') == t` for a string literal `t`: only a string
value compares equal to a string. -/
def isType (o : Obj) (t : String) : Bool :=
  match objGet? o "type" with
  | some (.str s) => s = t
  | _ => false

/-- Python truthiness of `d.get(k)` (the walrus tests in `x.crawl`):
`None`, `False`, `0`, `""`, `[]` and `{}` are falsy. -/
def pyTruthy : Option JsonV → Bool
  | none => false
  | some .null => false
  | some (.bool b) => b
  | some (.num n) => n != 0
  | some (.str s) => !(s == "")
  | some (.arr xs) => !xs.isEmpty
  | some (.obj fs) => !fs.isEmpty

/-- Python `==` on JSON values (used by `set.add` dedup and list membership). -/
def beqJ : JsonV → JsonV → Bool
  | .null, .null => true
  | .bool a, .bool b => a == b
  | .num a, .num b => a == b
  | .str a, .str b => a == b
  | .arr [], .arr [] => true
  | .arr (a :: as), .arr (b :: bs) => beqJ a b && beqJ (.arr as) (.arr bs)
  | .obj [], .obj [] => true
  | .obj ((k, a) :: as), .obj ((l, b) :: bs) =>
      k == l && beqJ a b && beqJ (.obj as) (.obj bs)
  | _, _ => false

/-- Python `repr()` for container elements (quoting approximated, no escape
handling; no claim evaluates this on containers). -/
def pyRepr : JsonV → String
  | .null => "None"
  | .bool true => "True"
  | .bool false => "False"
  | .num n => toString n
  | .str s => "'" ++ s ++ "'"
  | .arr xs => "[" ++ String.intercalate ", " (xs.attach.map fun x => pyRepr x.1) ++ "]"
  | .obj fs =>
      "\x7b" ++ String.intercalate ", "
        (fs.attach.map fun kv => "'" ++ kv.1.1 ++ "': " ++ pyRepr kv.1.2) ++ "\x7d"
decreasing_by
  · have := List.sizeOf_lt_of_mem x.2
    simp only [JsonV.arr.sizeOf_spec]
    omega
  · have := List.sizeOf_lt_of_mem kv.2
    have h2 : sizeOf kv.1.2 < sizeOf kv.1 := by
      obtain ⟨⟨a, b⟩, hm⟩ := kv
      simp only [Prod.mk.sizeOf_spec]
      omega
    simp only [JsonV.obj.sizeOf_spec]
    omega

/-- Python `str()` as used in f-strings and `csv` cell writing:
`str(None) = "None"`, `str("a") = "a"`, `str(5) = "5"`, `str(True) = "True"`. -/
def pyStr : JsonV → String
  | .null => "None"
  | .bool true => "True"
  | .bool false => "False"
  | .num n => toString n
  | .str s => s
  | v => pyRepr v

/-- Python `str()` of an optional value (`d.get(k)` may give `None`). -/
def pyStrOpt : Option JsonV → String
  | none => "None"
  | some v => pyStr v

/-- Python substring membership `pat in s` on strings, by code points. -/
def hasSubstr (s pat : String) : Bool :=
  (List.range (s.data.length + 1)).any fun i => pat.data.isPrefixOf (s.data.drop i)

/-- Python `<` on strings (lexicographic by code point). -/
def charListLt : List Char → List Char → Bool
  | [], [] => false
  | [], _ :: _ => true
  | _ :: _, [] => false
  | a :: as, b :: bs => if a < b then true else if b < a then false else charListLt as bs

/-- Python string `<` wrapper. -/
def pyStrLt (a b : String) : Bool := charListLt a.data b.data

/-- Python string `<=`, the comparison underlying `sorted` on column names. -/
def charListLe : List Char → List Char → Bool
  | [], _ => true
  | _ :: _, [] => false
  | a :: as, b :: bs => if a < b then true else if b < a then false else charListLe as bs

/-- Python string `<=` wrapper. -/
def pyStrLe (a b : String) : Bool := charListLe a.data b.data

/-- One line of a JSONL file: unparseable (truncated/non-JSON) or a value. -/
inductive Line where
  | malformed
  | val (v : JsonV)

/-- Python exceptions raised by the modelled code paths. `noCrawlStep` is the
`ValueError("No crawl_step messages found in previous file")` of the resume
scan; `noPosts` is `ValueError("No posts found in input file")` of the
exporter; `negativeSleep` is the `ValueError` of `time.sleep` on a negative
duration; `apiError`/`netError` are request failures. -/
inductive PyErr where
  | attrError
  | typeError
  | keyError
  | negativeSleep
  | noCrawlStep
  | noPosts
  | apiError (status : Int)
  | netError
deriving DecidableEq

/-- Rate-limit headers parsed by `search_recent_posts` (missing header ⇒ 0). -/
structure RateLimit where
  limit : Int
  remaining : Int
  reset : Int

/-- One API response as returned by `search_recent_posts`: the `data` list,
the `meta` mapping and the parsed rate-limit headers. -/
structure Response where
  posts : List JsonV
  pagination : Obj
  rate_limit : RateLimit

/-- The crawl engine's cursor state (`since_id` / `next_token` locals of
`x.crawl`); `none` is Python `None`. -/
structure CrawlState where
  since_id : Option JsonV
  next_token : Option JsonV

/-- Observable actions of one crawl-loop iteration, in program order:
`emit` is the generator `yield` (which the CLI consumer turns into log
records), `sleepFor` a completed `time.sleep`, `errorReport` the
`print(f"Error: ...", file=sys.stderr)` of the except-branch. -/
inductive Event where
  | emit (r : Response)
  | sleepFor (seconds : Int)
  | errorReport

/-- Cursor update of `x.crawl` lines 98-104:
`if newest_id := pagination.get("newest_id"): since_id = newest_id` and
`if next_token := pagination.get("next_token"): ... else: next_token = None`. -/
def nextCursors (st : CrawlState) (r : Response) : CrawlState :=
  { since_id := if pyTruthy (objGet? r.pagination "newest_id")
                then objGet? r.pagination "newest_id" else st.since_id,
    next_token := if pyTruthy (objGet? r.pagination "next_token")
                  then objGet? r.pagination "next_token" else none }

/-- One iteration of the `while True` loop of `x.crawl` (lines 83-123), as a
function of the outcome `resp` of `search_recent_posts`, the current time and
the configured delay. On success the cursors are updated, then the loop
sleeps — `(reset - time.time()) + 10` when `remaining == 0`, else `delay` —
and only then yields the step. A negative sleep duration makes `time.sleep`
raise, which the same `except` clause catches (error printed, `sleep(delay)`,
no yield); `time.sleep(delay)` with a negative `delay` raises out of the
generator. On a request failure the except-branch prints the error, sleeps
`delay` and continues with the cursors untouched. -/
def crawlStep (st : CrawlState) (resp : Except PyErr Response) (now delay : Int) :
    Except PyErr (CrawlState × List Event) :=
  match resp with
  | .error _ =>
      if delay < 0 then .error .negativeSleep
      else .ok (st, [.errorReport, .sleepFor delay])
  | .ok r =>
      let st' := nextCursors st r
      let wait := if r.rate_limit.remaining = 0 then r.rate_limit.reset - now + 10 else delay
      if wait < 0 then
        if delay < 0 then .error .negativeSleep
        else .ok (st', [.errorReport, .sleepFor delay])
      else .ok (st', [.sleepFor wait, .emit r])

/-- First completed sleep duration of an iteration's event trace. -/
def traceSleep : List Event → Option Int
  | [] => none
  | .sleepFor t :: _ => some t
  | _ :: rest => traceSleep rest

/-- Number of steps emitted in an iteration's event trace. -/
def traceEmits : List Event → Nat
  | [] => 0
  | .emit _ :: rest => traceEmits rest + 1
  | _ :: rest => traceEmits rest

/-- The sleep an iteration actually performs (through the whole `crawlStep`). -/
def stepSleep (st : CrawlState) (resp : Except PyErr Response) (now delay : Int) :
    Option Int :=
  match crawlStep st resp now delay with
  | .ok (_, tr) => traceSleep tr
  | .error _ => none

/-- Event-class tests used to compare emission and sleep positions. -/
def isEmitE : Event → Bool
  | .emit _ => true
  | _ => false

/-- Sleep-event test. -/
def isSleepE : Event → Bool
  | .sleepFor _ => true
  | _ => false

/-- Index of the first event satisfying `p`. -/
def firstIdx (p : Event → Bool) : List Event → Option Nat
  | [] => none
  | e :: rest => if p e then some 0 else (firstIdx p rest).map (· + 1)

/-- Whether a step is emitted strictly before any sleep of the iteration
(the ordering the specification asserts). -/
def emitsBeforeSleeping (tr : List Event) : Bool :=
  match firstIdx isEmitE tr, firstIdx isSleepE tr with
  | some i, some j => i < j
  | some _, none => true
  | _, _ => false

/-- The `rate_limit` dict as serialized into a `crawl_step` record. -/
def rateLimitJson (rl : RateLimit) : JsonV :=
  .obj [("limit", .num rl.limit), ("remaining", .num rl.remaining), ("reset", .num rl.reset)]

/-- The records `x_crawl` appends to the log for one received step
(cli.py lines 104-120): one `crawl_step` record followed by one `post` record
per post. The capture timestamps within one step are modelled as a single
instant `ts`. -/
def stepRecords (ts : Int) (r : Response) : List JsonV :=
  .obj [("type", .str "crawl_step"), ("timestamp", .num ts),
        ("pagination", .obj r.pagination), ("rate_limit", rateLimitJson r.rate_limit)]
  :: r.posts.map (fun p => .obj [("type", .str "post"), ("timestamp", .num ts), ("data", p)])

/-- Log records appended while replaying an iteration's events: the consumer
appends `stepRecords` whenever the generator yields. -/
def logAppendOf (tr : List Event) (ts : Int) : List JsonV :=
  tr.foldl (fun acc e => match e with
    | .emit r => acc ++ stepRecords ts r
    | _ => acc) []

/-- Modelled from the spec (section 4.1), for comparison with the code: the
reference Rate-Limit Gate returns `delay` when quota remains and
`max(0, reset - now) + grace` when `remaining == 0`. -/
def specRateGate (remaining reset delay now graceSeconds : Int) : Int :=
  if remaining > 0 then delay else max 0 (reset - now) + graceSeconds

/-- A response with given rate-limit numbers, empty payload and pagination. -/
def mkResp (remaining reset : Int) : Response :=
  ⟨[], [], ⟨450, remaining, reset⟩⟩

/-- Concrete response for the cursor-regression counterexample: the server
supplies a `newest_id` smaller than the current watermark. -/
def respNewest3 : Response :=
  ⟨[], [("newest_id", .str "3")], ⟨450, 5, 0⟩⟩

/-- Concrete response for the emission-order counterexample. -/
def respPlain : Response :=
  ⟨[], [], ⟨450, 5, 0⟩⟩

/-- Completion of the resume scan after the last line (cli.py lines 87-92):
raise if no `crawl_step` was seen, else read `newest_id` and `next_token`
from `last_crawl_step.get('pagination', {})` — a present but non-dict
`pagination` makes `.get` raise `AttributeError`. -/
def resumeFinish : Option Obj → Except PyErr (Option JsonV × Option JsonV)
  | none => .error .noCrawlStep
  | some o =>
      match objGetD o "pagination" (.obj []) with
      | .obj p => .ok (objGet? p "newest_id", objGet? p "next_token")
      | _ => .error .attrError

/-- The resume scan of `x_crawl --previous` (cli.py lines 77-92): iterate the
lines, skip `json.JSONDecodeError` lines, remember the last record whose
`type` is `"crawl_step"`; a line parsing to a non-dict value makes
`data.get('type')` raise `AttributeError`. -/
def resumeScanAux (last : Option Obj) : List Line → Except PyErr (Option JsonV × Option JsonV)
  | [] => resumeFinish last
  | .malformed :: rest => resumeScanAux last rest
  | .val (.obj o) :: rest =>
      resumeScanAux (if isType o "crawl_step" then some o else last) rest
  | .val _ :: _ => .error .attrError

/-- Resume scan of a whole previous log. -/
def resumeScan (lines : List Line) : Except PyErr (Option JsonV × Option JsonV) :=
  resumeScanAux none lines

/-- The JSON-object records among a log's parseable lines, in order. -/
def parsedObjs (lines : List Line) : List Obj :=
  lines.filterMap fun l => match l with
    | .val (.obj o) => some o
    | _ => none

/-- The last `crawl_step` record of a log, stated independently of the scan. -/
def lastCrawlStep (lines : List Line) : Option Obj :=
  ((parsedObjs lines).filter fun o => isType o "crawl_step").getLast?

/-- The `pagination` mapping of a record (default empty, as `get` supplies). -/
def pagFieldsOf (o : Obj) : Obj :=
  match objGetD o "pagination" (.obj []) with
  | .obj p => p
  | _ => []

/-- A line is a log record or a truncated write: unparseable, or parsing to a
JSON object (the persisted record format; truncating a serialized object
record never yields valid JSON of another shape). -/
def lineIsRecord : Line → Bool
  | .malformed => true
  | .val (.obj _) => true
  | .val _ => false

/-- A record's `pagination` field, when present, is a mapping (the persisted
`PaginationState` format). -/
def pagObjOk (o : Obj) : Bool :=
  match objGetD o "pagination" (.obj []) with
  | .obj _ => true
  | _ => false

/-- Python `set.add` on collected author identifiers (first-insertion order,
duplicates by value equality). -/
def setInsert (acc : List JsonV) (v : JsonV) : List JsonV :=
  if acc.any (fun w => beqJ w v) then acc else acc ++ [v]

/-- First pass of `x_enrich_crawl` (cli.py lines 174-182): collect the
distinct `author_id` values of `post` records. `'author_id' in data.get('data', {})`
is dict-key membership for a mapping, element membership for a list,
substring search for a string, and a `TypeError` otherwise; for a list or
string that passes, the subsequent `data['data']['author_id']` indexing
raises `TypeError`. A non-dict parsed line makes `data.get` raise. -/
def collectAuthorsAux (acc : List JsonV) : List Line → Except PyErr (List JsonV)
  | [] => .ok acc
  | .malformed :: rest => collectAuthorsAux acc rest
  | .val (.obj o) :: rest =>
      if isType o "post" then
        match objGetD o "data" (.obj []) with
        | .obj d =>
            match objGet? d "author_id" with
            | some v => collectAuthorsAux (setInsert acc v) rest
            | none => collectAuthorsAux acc rest
        | .arr xs =>
            if xs.any (fun x => beqJ x (.str "author_id")) then .error .typeError
            else collectAuthorsAux acc rest
        | .str s =>
            if hasSubstr s "author_id" then .error .typeError
            else collectAuthorsAux acc rest
        | _ => .error .typeError
      else collectAuthorsAux acc rest
  | .val _ :: _ => .error .attrError

/-- Author-identifier collection over a whole log. -/
def collectAuthors (lines : List Line) : Except PyErr (List JsonV) :=
  collectAuthorsAux [] lines

/-- The batch slicing of `x_enrich_crawl` (cli.py lines 186-188):
`for i in range(0, len(author_ids), 100): batch = list(author_ids)[i:i+100]`.
`List.range' 0 k 100` is `range(0, n, 100)` with `k = ceil(n / 100)`
iterations, and slice `[i:i+100]` is `take 100` after `drop i`. -/
def pyBatches {α : Type} (ids : List α) : List (List α) :=
  (List.range' 0 ((ids.length + 99) / 100) 100).map fun i => (ids.drop i).take 100

/-- 250 distinct author identifiers, for the partitioning instance. -/
def ids250 : List JsonV :=
  (List.range 250).map fun i => .num i

/-- Python `author_id in author_info` followed by `author_info[author_id]`:
the map's keys are the platform's string user ids, so only a string
identifier can be found. -/
def authorLookup (info : List (String × JsonV)) : Option JsonV → Option JsonV
  | some (.str s) => objGet? info s
  | _ => none

/-- Loop body of the second pass of `x_enrich_crawl` (cli.py lines 211-215)
on one parsed record: for a `post` record, `data['data']` (bracket access —
`KeyError` when absent, `AttributeError` through `.get` when not a mapping)
supplies the `author_id`; when resolved,
`data['author_data'] = author_info[author_id]`; non-post records pass
through. -/
def enrichRecordE (info : List (String × JsonV)) (o : Obj) : Except PyErr Obj :=
  if isType o "post" then
    match objGet? o "data" with
    | none => .error .keyError
    | some (.obj d) =>
        match authorLookup info (objGet? d "author_id") with
        | some ai => .ok (objSet o "author_data" ai)
        | none => .ok o
    | some _ => .error .attrError
  else .ok o

/-- Second pass of `x_enrich_crawl` (cli.py lines 207-218): skip unparseable
lines, process each record with `enrichRecordE`, write every processed
record out in order; any raised exception aborts the pass. -/
def enrichPass2 (info : List (String × JsonV)) : List Line → Except PyErr (List JsonV)
  | [] => .ok []
  | .malformed :: rest => enrichPass2 info rest
  | .val (.obj o) :: rest =>
      match enrichRecordE info o with
      | .error e => .error e
      | .ok o' =>
          match enrichPass2 info rest with
          | .error e => .error e
          | .ok rest' => .ok (.obj o' :: rest')
  | .val _ :: _ => .error .attrError

/-- The per-record effect of the enrichment rewrite on a parsed record. -/
def enrichRecord (info : List (String × JsonV)) (o : Obj) : Obj :=
  if isType o "post" then
    match objGet? o "data" with
    | some (.obj d) =>
        match authorLookup info (objGet? d "author_id") with
        | some ai => objSet o "author_data" ai
        | none => o
    | _ => o
  else o

/-- A line the enrichment rewrite accepts: a truncated write, a non-post
record, or a post record carrying a `data` mapping. -/
def enrichLineOk : Line → Bool
  | .malformed => true
  | .val (.obj o) =>
      if isType o "post" then
        match objGet? o "data" with
        | some (.obj _) => true
        | _ => false
      else true
  | .val _ => false

/-- Flattening of `convert.flatten_dict` (convert.py lines 7-25): nested
mappings are expanded with `parent_key + '_' + key` names, other values are
kept; the item list is in traversal order. -/
def flattenItems (pk : String) : List (String × JsonV) → List (String × JsonV)
  | [] => []
  | (k, v) :: rest =>
    let nk := if pk = "" then k else pk ++ "_" ++ k
    (match v with
     | .obj fs => flattenItems nk fs
     | x => [(nk, x)]) ++ flattenItems pk rest

/-- Python `dict(items)`: first insertion fixes the position, a later
duplicate key overwrites the value (last occurrence wins). -/
def dictOfItems (items : List (String × JsonV)) : Obj :=
  items.foldl (fun acc kv => objSet acc kv.1 kv.2) []

/-- `convert.flatten_dict`. -/
def flatten_dict (d : Obj) : Obj :=
  dictOfItems (flattenItems "" d)

/-- The `x_link` URL base of convert.py line 51. -/
def linkBase : String := "https://x.com/i/web/status/"

/-- Per-post transformation of `jsonl_to_csv` (convert.py lines 49-56): set
`post['x_link']` from `post.get('id')`, copy `author_data` from the record
when present, then flatten. -/
def transformPost (o p : Obj) : Obj :=
  let p1 := objSet p "x_link" (.str (linkBase ++ pyStrOpt (objGet? p "id")))
  let p2 := match objGet? o "author_data" with
    | some ad => objSet p1 "author_data" ad
    | none => p1
  flatten_dict p2

/-- Post-collection loop of `jsonl_to_csv` (convert.py lines 43-59): skip
unparseable lines, keep `post` records, transform each; a non-dict parsed
line or a non-dict `data` value raises (`.get` / item assignment on a
non-dict). -/
def csvCollect : List Line → Except PyErr (List Obj)
  | [] => .ok []
  | .malformed :: rest => csvCollect rest
  | .val (.obj o) :: rest =>
      if isType o "post" then
        match objGetD o "data" (.obj []) with
        | .obj p => do
            let tail ← csvCollect rest
            .ok (transformPost o p :: tail)
        | _ => .error .attrError
      else csvCollect rest
  | .val _ :: _ => .error .attrError

/-- Distinct keys in first-occurrence order (`set()` accumulation; the order
is irrelevant because the result is sorted). -/
def distinctAux (seen : List String) : List String → List String
  | [] => []
  | x :: xs =>
      if seen.contains x then distinctAux seen xs
      else x :: distinctAux (x :: seen) xs

/-- Insertion into a sorted list under Python string `<=`. -/
def insertSorted (k : String) : List String → List String
  | [] => [k]
  | x :: xs => if pyStrLe k x then k :: x :: xs else x :: insertSorted k xs

/-- Python `sorted` on strings (stable; code-point lexicographic). -/
def sortStrings : List String → List String
  | [] => []
  | x :: xs => insertSorted x (sortStrings xs)

/-- Header computation of `jsonl_to_csv` (convert.py lines 66-70): the sorted
union of all flattened field names. -/
def fieldnamesOf (posts : List Obj) : List String :=
  sortStrings (distinctAux [] (posts.foldl (fun acc p => acc ++ p.map Prod.fst) []))

/-- `csv.DictWriter` cell for an optional field value: missing fields are
written as the empty string (`restval`), values via `str()`. -/
def csvCell : Option JsonV → String
  | none => ""
  | some v => pyStr v

/-- One CSV data row: the post's cells in header order. -/
def rowOf (fieldnames : List String) (p : Obj) : List String :=
  fieldnames.map fun k => csvCell (objGet? p k)

/-- `convert.jsonl_to_csv` (convert.py lines 27-76), returning the written
table (header row then one row per post) and the reported post count;
`ValueError` when no posts were found. -/
def jsonl_to_csv (lines : List Line) : Except PyErr (List (List String) × Nat) := do
  let posts ← csvCollect lines
  if posts.isEmpty then .error .noPosts
  else
    let fns := fieldnamesOf posts
    .ok (fns :: posts.map (rowOf fns), posts.length)

/-- A line the exporter accepts: a truncated write, a non-post record, or a
post record whose `data` (defaulted to `{}`) is a mapping. -/
def exportLineOk : Line → Bool
  | .malformed => true
  | .val (.obj o) =>
      if isType o "post" then
        match objGetD o "data" (.obj []) with
        | .obj _ => true
        | _ => false
      else true
  | .val _ => false

/-- Number of `post` records among a log's parsed lines. -/
def postCount (lines : List Line) : Nat :=
  ((parsedObjs lines).filter fun o => isType o "post").length

/-- The transformed posts of a log, stated independently of the scan. -/
def collectedPosts (lines : List Line) : List Obj :=
  lines.filterMap fun l => match l with
    | .val (.obj o) =>
        if isType o "post" then
          match objGetD o "data" (.obj []) with
          | .obj p => some (transformPost o p)
          | _ => none
        else none
    | _ => none

/-- The cell of a table row under the header column named `k`. -/
def tableCell : List String → List String → String → Option String
  | [], _, _ => none
  | _ :: _, [], _ => none
  | f :: fs, c :: cs, k => if f = k then some c else tableCell fs cs k

/-- A `post` log record wrapping the data mapping `p`. -/
def postRecOf (p : Obj) : Obj :=
  [("type", .str "post"), ("timestamp", .num 0), ("data", .obj p)]

/-- The log line of `postRecOf`. -/
def postLineOf (p : Obj) : Line :=
  .val (.obj (postRecOf p))

/-- Concrete previous log for the resume witness. -/
def resumeWLog : List Line :=
  [.malformed,
   .val (.obj [("type", .str "crawl_step"), ("timestamp", .num 5),
               ("pagination", .obj [("newest_id", .str "9"), ("next_token", .str "t")]),
               ("rate_limit", rateLimitJson ⟨450, 3, 0⟩)]),
   .val (.obj [("type", .str "post"), ("timestamp", .num 6), ("data", .obj [])])]

/-- The crawl-step record of `resumeWLog`. -/
def resumeWObj : Obj :=
  [("type", .str "crawl_step"), ("timestamp", .num 5),
   ("pagination", .obj [("newest_id", .str "9"), ("next_token", .str "t")]),
   ("rate_limit", rateLimitJson ⟨450, 3, 0⟩)]

/-- An already-enriched post record whose author is no longer resolvable. -/
def staleEnrichedRec : Obj :=
  [("type", .str "post"), ("timestamp", .num 1),
   ("data", .obj [("author_id", .str "a")]),
   ("author_data", .obj [("follower_count", .num 1)])]

/-- First post data of the export round-trip example. -/
def ex1p : Obj := [("id", .str "1"), ("author_id", .str "a")]

/-- Second post data of the export round-trip example. -/
def ex2p : Obj := [("id", .str "2"), ("author_id", .str "b")]

/-- First post record of the export round-trip example. -/
def ex1rec : Obj := [("type", .str "post"), ("timestamp", .num 1), ("data", .obj ex1p)]

/-- Second post record of the export round-trip example. -/
def ex2rec : Obj := [("type", .str "post"), ("timestamp", .num 2), ("data", .obj ex2p)]

/-- The concrete export log of the specification's round-trip example. -/
def exLog : List Line :=
  [.val (.obj ex1rec), .val (.obj ex2rec)]

/-- A log with a crawl step but no posts (export fails on it). -/
def noPostsLog : List Line :=
  [.val (.obj [("type", .str "crawl_step"), ("timestamp", .num 1),
               ("pagination", .obj []), ("rate_limit", rateLimitJson ⟨450, 3, 0⟩)])]

/-- The colliding post data of the missing-id counterexample: it has no `id`,
a literal `x_link` field, and a nested mapping that flattens to `x_link`. -/
def pCollide : Obj :=
  [("x_link", .num 0), ("x", .obj [("link", .num 5)])]

/-- Resolved author map for the enrichment witness. -/
def enrichWInfo : List (String × JsonV) :=
  [("a", .obj [("follower_count", .num 42), ("username", .str "u")])]

/-- Crawl log with one post for the enrichment witness. -/
def enrichWLog : List Line :=
  [.val (.obj [("type", .str "post"), ("timestamp", .num 1),
               ("data", .obj [("author_id", .str "a")])])]

end Survival

namespace Survival

/-- Reduction of a successful `Except` bind (the `try` bodies compose). -/
theorem except_bind_ok {α β : Type} (a : α) (f : α → Except PyErr β) :
    (do let x ← Except.ok a; f x) = f a := rfl

/-- Setting a key makes it readable. -/
theorem objGet?_objSet_self (o : Obj) (k : String) (v : JsonV) :
    objGet? (objSet o k v) k = some v := by
  induction o with
  | nil => simp [objSet, objGet?]
  | cons hd tl ih =>
    obtain ⟨k0, w⟩ := hd
    by_cases h0 : k0 = k
    · simp [objSet, h0, objGet?]
    · simp [objSet, h0, objGet?, ih]

/-- Setting a key leaves other keys unchanged. -/
theorem objGet?_objSet_ne (o : Obj) (k k' : String) (v : JsonV) (h : k ≠ k') :
    objGet? (objSet o k v) k' = objGet? o k' := by
  induction o with
  | nil => simp [objSet, objGet?, h]
  | cons hd tl ih =>
    obtain ⟨k0, w⟩ := hd
    by_cases h0 : k0 = k
    · subst h0
      simp [objSet, objGet?, h]
    · simp [objSet, h0, objGet?, ih]

/-- Setting an absent key appends it. -/
theorem objSet_of_get_none (o : Obj) (k : String) (v : JsonV)
    (h : objGet? o k = none) : objSet o k v = o ++ [(k, v)] := by
  induction o with
  | nil => rfl
  | cons hd tl ih =>
    obtain ⟨k0, w⟩ := hd
    by_cases h0 : k0 = k
    · rw [objGet?, if_pos h0] at h
      exact absurd h (by simp)
    · rw [objGet?, if_neg h0] at h
      simp [objSet, h0, ih h]

/-- A readable key occurs among the keys. -/
theorem mem_keys_of_objGet? (o : Obj) (k : String) (v : JsonV)
    (h : objGet? o k = some v) : k ∈ o.map Prod.fst := by
  induction o with
  | nil => simp [objGet?] at h
  | cons hd tl ih =>
    obtain ⟨k0, w⟩ := hd
    by_cases h0 : k0 = k
    · simp [h0]
    · rw [objGet?, if_neg h0] at h
      simp [ih h]

/-- Flattening distributes over list concatenation. -/
theorem flattenItems_append (pk : String) (l1 l2 : List (String × JsonV)) :
    flattenItems pk (l1 ++ l2) = flattenItems pk l1 ++ flattenItems pk l2 := by
  induction l1 with
  | nil => simp [flattenItems]
  | cons h t ih =>
    obtain ⟨k, v⟩ := h
    cases v <;> simp [flattenItems, ih, List.append_assoc]

/-- `dict(items + [(k, v)])` is `dict(items)` with `k` set to `v`. -/
theorem dictOfItems_append (items : List (String × JsonV)) (k : String) (v : JsonV) :
    dictOfItems (items ++ [(k, v)]) = objSet (dictOfItems items) k v := by
  simp [dictOfItems, List.foldl_append]

/-- The computed `x_link` value of a transformed post, when the record has no
`author_data` and the data mapping has no literal `x_link` field. -/
theorem transformPost_xlink (o p : Obj)
    (had : objGet? o "author_data" = none)
    (hx : objGet? p "x_link" = none) :
    objGet? (transformPost o p) "x_link"
      = some (.str (linkBase ++ pyStrOpt (objGet? p "id"))) := by
  simp only [transformPost, had]
  rw [objSet_of_get_none p _ _ hx, flatten_dict, flattenItems_append,
    show flattenItems "" [("x_link", JsonV.str (linkBase ++ pyStrOpt (objGet? p "id")))]
        = [("x_link", JsonV.str (linkBase ++ pyStrOpt (objGet? p "id")))] by
      simp [flattenItems],
    dictOfItems_append, objGet?_objSet_self]

/-- Membership through sorted insertion. -/
theorem mem_insertSorted (a k : String) (l : List String) :
    a ∈ insertSorted k l ↔ a = k ∨ a ∈ l := by
  induction l with
  | nil => simp [insertSorted]
  | cons x xs ih =>
    by_cases h : pyStrLe k x = true
    · simp [insertSorted, h]
    · simp [insertSorted, h, ih]
      tauto

/-- Sorting preserves membership. -/
theorem mem_sortStrings (a : String) (l : List String) :
    a ∈ sortStrings l ↔ a ∈ l := by
  induction l with
  | nil => simp [sortStrings]
  | cons x xs ih => simp [sortStrings, mem_insertSorted, ih]

/-- Deduplication keeps every unseen element. -/
theorem mem_distinctAux (a : String) (l : List String) :
    ∀ seen : List String, a ∈ l → seen.contains a = false → a ∈ distinctAux seen l := by
  induction l with
  | nil => intro seen h; simp at h
  | cons x xs ih =>
    intro seen hmem hseen
    have hseen' : a ∉ seen := by simpa using hseen
    by_cases hax : a = x
    · subst hax
      simp [distinctAux, hseen']
    · rcases List.mem_cons.mp hmem with h | h
      · exact absurd h hax
      · by_cases hc : seen.contains x = true
        · simp only [distinctAux, hc, if_true]
          exact ih seen h hseen
        · have hc' : seen.contains x = false := by
            cases hcc : seen.contains x
            · rfl
            · exact absurd hcc hc
          simp only [distinctAux, hc', Bool.false_eq_true, if_false]
          refine List.mem_cons.mpr (Or.inr (ih (x :: seen) h ?_))
          simp [hax]
          exact fun hcon => absurd hcon hseen'

/-- Reading a table row under a header column present in the header. -/
theorem tableCell_rowOf (fns : List String) (q : Obj) (k : String)
    (h : k ∈ fns) : tableCell fns (rowOf fns q) k = some (csvCell (objGet? q k)) := by
  induction fns with
  | nil => simp at h
  | cons f fs ih =>
    by_cases hf : f = k
    · subst hf
      simp [rowOf, tableCell]
    · rcases List.mem_cons.mp h with h' | h'
      · exact absurd h'.symm hf
      · simp only [rowOf, List.map_cons, tableCell, if_neg hf]
        exact ih h'

/-- Last element of a nonempty cons, as used by the resume characterization. -/
theorem getLast?_cons_case {α : Type} (o : α) (F : List α) (last : Option α) :
    (match (o :: F).getLast? with | some x => some x | none => last)
      = (match F.getLast? with | some x => some x | none => some o) := by
  cases F with
  | nil => rfl
  | cons f fs =>
    rw [List.getLast?_cons_cons]
    have hs : (f :: fs).getLast?.isSome := by
      rw [List.getLast?_isSome]
      simp
    obtain ⟨y, hy⟩ := Option.isSome_iff_exists.mp hs
    rw [hy]

/-- The last `crawl_step` seen, combining the carried accumulator. -/
def lastOr (last : Option Obj) (lines : List Line) : Option Obj :=
  ((parsedObjs lines).filter fun o => isType o "crawl_step").foldl (fun _ o => some o) last

/-- Overwriting fold computes the last element when one exists. -/
theorem foldl_overwrite {α : Type} :
    ∀ (F : List α) (last : Option α),
      F.foldl (fun _ o => some o) last
        = match F.getLast? with | some x => some x | none => last := by
  intro F
  induction F with
  | nil => intro last; rfl
  | cons f fs ih =>
    intro last
    rw [List.foldl_cons, ih (some f), ← getLast?_cons_case]

/-- `lastOr` accumulates across a leading record line. -/
theorem lastOr_cons_obj (o : Obj) (tl : List Line) (last : Option Obj) :
    lastOr last (.val (.obj o) :: tl)
      = lastOr (if isType o "crawl_step" then some o else last) tl := by
  unfold lastOr
  simp only [parsedObjs, List.filterMap_cons]
  by_cases hcs : isType o "crawl_step" = true
  · simp [List.filter_cons, hcs]
  · simp [List.filter_cons, hcs]

/-- The resume scan over record-shaped lines computes `resumeFinish` of the
last `crawl_step` record. -/
theorem resumeScanAux_eq (lines : List Line)
    (h : ∀ l ∈ lines, lineIsRecord l = true) :
    ∀ last : Option Obj, resumeScanAux last lines = resumeFinish (lastOr last lines) := by
  induction lines with
  | nil => intro last; rfl
  | cons hd tl ih =>
    intro last
    have htl : ∀ l ∈ tl, lineIsRecord l = true := fun l hl => h l (List.mem_cons_of_mem _ hl)
    cases hd with
    | malformed =>
        rw [resumeScanAux, ih htl last]
        rfl
    | val v =>
        cases v with
        | obj o =>
            rw [resumeScanAux, ih htl, lastOr_cons_obj]
        | null => exact absurd (h _ (List.mem_cons_self _ _)) (by simp [lineIsRecord])
        | bool b => exact absurd (h _ (List.mem_cons_self _ _)) (by simp [lineIsRecord])
        | num n => exact absurd (h _ (List.mem_cons_self _ _)) (by simp [lineIsRecord])
        | str s => exact absurd (h _ (List.mem_cons_self _ _)) (by simp [lineIsRecord])
        | arr xs => exact absurd (h _ (List.mem_cons_self _ _)) (by simp [lineIsRecord])

/-- The export scan over well-shaped lines succeeds with the transformed
posts in order. -/
theorem csvCollect_ok (lines : List Line)
    (h : ∀ l ∈ lines, exportLineOk l = true) :
    csvCollect lines = .ok (collectedPosts lines) := by
  induction lines with
  | nil => rfl
  | cons hd tl ih =>
    have htl : ∀ l ∈ tl, exportLineOk l = true := fun l hl => h l (List.mem_cons_of_mem _ hl)
    have hhd := h hd (List.mem_cons_self _ _)
    cases hd with
    | malformed =>
        rw [csvCollect, ih htl]
        rfl
    | val v =>
        cases v with
        | obj o =>
            by_cases hp : isType o "post" = true
            · cases hm : objGetD o "data" (.obj []) with
              | obj p =>
                  rw [csvCollect, if_pos hp, hm, ih htl]
                  simp only [collectedPosts, List.filterMap_cons, hp, hm]
                  rfl
              | null => exact absurd hhd (by simp [exportLineOk, hp, hm])
              | bool b => exact absurd hhd (by simp [exportLineOk, hp, hm])
              | num n => exact absurd hhd (by simp [exportLineOk, hp, hm])
              | str s => exact absurd hhd (by simp [exportLineOk, hp, hm])
              | arr xs => exact absurd hhd (by simp [exportLineOk, hp, hm])
            · rw [csvCollect, if_neg hp, ih htl]
              simp [collectedPosts, List.filterMap_cons, hp]
        | null => exact absurd hhd (by simp [exportLineOk])
        | bool b => exact absurd hhd (by simp [exportLineOk])
        | num n => exact absurd hhd (by simp [exportLineOk])
        | str s => exact absurd hhd (by simp [exportLineOk])
        | arr xs => exact absurd hhd (by simp [exportLineOk])

/-- Over well-shaped lines, every post record yields exactly one table row. -/
theorem collectedPosts_length (lines : List Line)
    (h : ∀ l ∈ lines, exportLineOk l = true) :
    (collectedPosts lines).length = postCount lines := by
  induction lines with
  | nil => rfl
  | cons hd tl ih =>
    have htl : ∀ l ∈ tl, exportLineOk l = true := fun l hl => h l (List.mem_cons_of_mem _ hl)
    have hhd := h hd (List.mem_cons_self _ _)
    cases hd with
    | malformed =>
        simp only [collectedPosts, List.filterMap_cons, postCount, parsedObjs] at ih ⊢
        exact ih htl
    | val v =>
        cases v with
        | obj o =>
            by_cases hp : isType o "post" = true
            · cases hm : objGetD o "data" (.obj []) with
              | obj p =>
                  simp only [collectedPosts, List.filterMap_cons, postCount, parsedObjs,
                    hp, hm, List.filter_cons, if_true, List.length_cons]
                  exact congrArg Nat.succ (ih htl)
              | null => exact absurd hhd (by simp [exportLineOk, hp, hm])
              | bool b => exact absurd hhd (by simp [exportLineOk, hp, hm])
              | num n => exact absurd hhd (by simp [exportLineOk, hp, hm])
              | str s => exact absurd hhd (by simp [exportLineOk, hp, hm])
              | arr xs => exact absurd hhd (by simp [exportLineOk, hp, hm])
            · simp only [collectedPosts, List.filterMap_cons, postCount, parsedObjs,
                hp, List.filter_cons, Bool.false_eq_true, if_false]
              exact ih htl
        | null => exact absurd hhd (by simp [exportLineOk])
        | bool b => exact absurd hhd (by simp [exportLineOk])
        | num n => exact absurd hhd (by simp [exportLineOk])
        | str s => exact absurd hhd (by simp [exportLineOk])
        | arr xs => exact absurd hhd (by simp [exportLineOk])

/-- On a well-shaped record the loop body succeeds with the record-wise
transformation. -/
theorem enrichRecordE_ok (info : List (String × JsonV)) (o : Obj)
    (h : enrichLineOk (.val (.obj o)) = true) :
    enrichRecordE info o = .ok (enrichRecord info o) := by
  unfold enrichRecordE enrichRecord
  by_cases hp : isType o "post" = true
  · rw [if_pos hp, if_pos hp]
    cases hm : objGet? o "data" with
    | none => exact absurd h (by simp [enrichLineOk, hp, hm])
    | some d =>
        cases d with
        | obj dd =>
            cases hl : authorLookup info (objGet? dd "author_id") with
            | none => simp [hl]
            | some ai => simp [hl]
        | null => exact absurd h (by simp [enrichLineOk, hp, hm])
        | bool b => exact absurd h (by simp [enrichLineOk, hp, hm])
        | num n => exact absurd h (by simp [enrichLineOk, hp, hm])
        | str s => exact absurd h (by simp [enrichLineOk, hp, hm])
        | arr xs => exact absurd h (by simp [enrichLineOk, hp, hm])
  · rw [if_neg hp, if_neg hp]

/-- The enrichment rewrite over well-shaped lines succeeds and acts
record-wise. -/
theorem enrichPass2_ok (info : List (String × JsonV)) (lines : List Line)
    (h : ∀ l ∈ lines, enrichLineOk l = true) :
    enrichPass2 info lines
      = .ok ((parsedObjs lines).map fun o => .obj (enrichRecord info o)) := by
  induction lines with
  | nil => rfl
  | cons hd tl ih =>
    have htl : ∀ l ∈ tl, enrichLineOk l = true := fun l hl => h l (List.mem_cons_of_mem _ hl)
    have hhd := h hd (List.mem_cons_self _ _)
    cases hd with
    | malformed =>
        rw [enrichPass2, ih htl]
        rfl
    | val v =>
        cases v with
        | obj o =>
            have hre := enrichRecordE_ok info o hhd
            simp [enrichPass2, hre, ih htl, parsedObjs, List.filterMap_cons]
        | null => exact absurd hhd (by simp [enrichLineOk])
        | bool b => exact absurd hhd (by simp [enrichLineOk])
        | num n => exact absurd hhd (by simp [enrichLineOk])
        | str s => exact absurd hhd (by simp [enrichLineOk])
        | arr xs => exact absurd hhd (by simp [enrichLineOk])

/-- Shift of a stepped range under `map`. -/
theorem range'_map_shift {α : Type} :
    ∀ (m : Nat) (f : Nat → α) (s : Nat),
      (List.range' s m 100).map f = (List.range' 0 m 100).map fun i => f (s + i) := by
  intro m
  induction m with
  | zero => intro f s; rfl
  | succ m ih =>
    intro f s
    rw [List.range'_succ, List.range'_succ, List.map_cons, List.map_cons,
      ih f (s + 100), ih (fun i => f (s + i)) 100]
    refine congrArg₂ List.cons (congrArg f (by omega)) ?_
    exact List.map_congr_left fun a _ => congrArg f (by omega)

/-- Unfolding of the batch slicing on a nonempty identifier list. -/
theorem pyBatches_cons {α : Type} (l : List α) (h : l ≠ []) :
    pyBatches l = l.take 100 :: pyBatches (l.drop 100) := by
  have hn : l.length ≠ 0 := by simpa using h
  unfold pyBatches
  rw [show (l.length + 99) / 100 = ((l.drop 100).length + 99) / 100 + 1 by
    simp only [List.length_drop]; omega]
  rw [List.range'_succ, List.map_cons, List.drop_zero, Nat.zero_add]
  congr 1
  rw [range'_map_shift]
  exact List.map_congr_left fun a _ => by
    rw [List.drop_drop]
    try congr 1
    try omega

/-- The batches concatenate back to the identifier list. -/
theorem pyBatches_flatten {α : Type} (l : List α) : (pyBatches l).flatten = l := by
  by_cases h : l = []
  · subst h
    simp [pyBatches]
  · rw [pyBatches_cons l h]
    have ih := pyBatches_flatten (l.drop 100)
    simp [ih]
termination_by l.length
decreasing_by
  simp only [List.length_drop]
  have : l.length ≠ 0 := by simpa using h
  omega

end Survival

namespace Survival

/-- C2 (counterexample). The crawl loop's rate-limit wait does not equal the
spec's reference gate `max(0, reset - now) + grace` for any fixed
`grace ≥ 1`: with `remaining == 0` the code sleeps `(reset - now) + 10`
without clamping, so at current time 100 a state with `reset = 100` sleeps 10
while a state with `reset = 95` (5 seconds in the past) sleeps 5 — two values
no single grace constant can reproduce, and the second is below any
`grace ≥ 1 + max(0, reset - now) = g` prediction of at least `g`. -/
theorem rate_gate_differs_from_spec :
    ¬ ∃ g : Int, 1 ≤ g ∧ ∀ remaining reset : Int,
      stepSleep ⟨none, none⟩ (.ok (mkResp remaining reset)) 100 3
        = some (specRateGate remaining reset 3 100 g) := by
  rintro ⟨g, hg, hall⟩
  have h1 := hall 0 100
  have h2 := hall 0 95
  rw [show stepSleep ⟨none, none⟩ (.ok (mkResp 0 100)) 100 3 = some 10 from rfl] at h1
  rw [show stepSleep ⟨none, none⟩ (.ok (mkResp 0 95)) 100 3 = some 5 from rfl] at h2
  simp only [specRateGate] at h1 h2
  norm_num at h1 h2
  omega

/-- C2 (amended). The wait the crawl loop actually performs, as a function of
the rate-limit state: with `remaining ≠ 0` it sleeps exactly `delay`
regardless of `reset`; with `remaining == 0` it computes
`(reset - now) + 10` (grace 10, no `max(0, ...)` clamp) and sleeps that when
it is non-negative, while a negative computed wait makes `time.sleep` raise,
turning the step into an error report followed by a `delay` sleep and no
emission. -/
theorem rate_gate_behavior (st : CrawlState) (r : Response) (now delay : Int)
    (hd : 0 ≤ delay) :
    (r.rate_limit.remaining ≠ 0 →
      crawlStep st (.ok r) now delay = .ok (nextCursors st r, [.sleepFor delay, .emit r])) ∧
    (r.rate_limit.remaining = 0 → 0 ≤ r.rate_limit.reset - now + 10 →
      crawlStep st (.ok r) now delay
        = .ok (nextCursors st r, [.sleepFor (r.rate_limit.reset - now + 10), .emit r])) ∧
    (r.rate_limit.remaining = 0 → r.rate_limit.reset - now + 10 < 0 →
      crawlStep st (.ok r) now delay = .ok (nextCursors st r, [.errorReport, .sleepFor delay])) := by
  refine ⟨fun hrem => ?_, fun hrem hw => ?_, fun hrem hw => ?_⟩
  · simp only [crawlStep, if_neg hrem]
    rw [if_neg (by omega)]
  · simp only [crawlStep, if_pos hrem]
    rw [if_neg (by omega)]
  · simp only [crawlStep, if_pos hrem]
    rw [if_pos (by omega), if_neg (by omega)]

/-- C2 (witness): a concrete quota-remaining step sleeps exactly the delay. -/
theorem rate_gate_behavior_witness :
    crawlStep ⟨none, none⟩ (.ok (mkResp 7 0)) 100 4
      = .ok (nextCursors ⟨none, none⟩ (mkResp 7 0), [.sleepFor 4, .emit (mkResp 7 0)]) :=
  (rate_gate_behavior ⟨none, none⟩ (mkResp 7 0) 100 4 (by norm_num)).1 (by decide)

/-- C3 (counterexample). The watermark regresses: from `since_id = "5"`, a
response carrying `newest_id = "3"` (smaller than the watermark in Python
string order) overwrites `since_id` with `"3"` — the code has no
monotonicity check. -/
theorem cursor_regression :
    crawlStep ⟨some (.str "5"), none⟩ (.ok respNewest3) 0 1
      = .ok (⟨some (.str "3"), none⟩, [.sleepFor 1, .emit respNewest3]) ∧
    pyStrLt "3" "5" = true :=
  ⟨rfl, rfl⟩

/-- C3 (amended). The cursor update of a successful step: `since_id` is
overwritten with the response's `newest_id` whenever that field is present
and truthy — with no order comparison — and is left unchanged otherwise; in
particular a response that omits `newest_id` never regresses the watermark,
but a response supplying a smaller `newest_id` does. -/
theorem cursor_update (st : CrawlState) (r : Response) (now delay : Int)
    (st' : CrawlState) (tr : List Event)
    (h : crawlStep st (.ok r) now delay = .ok (st', tr)) :
    (st'.since_id = if pyTruthy (objGet? r.pagination "newest_id")
       then objGet? r.pagination "newest_id" else st.since_id) ∧
    (objGet? r.pagination "newest_id" = none → st'.since_id = st.since_id) := by
  have hst : st' = nextCursors st r := by
    simp only [crawlStep] at h
    repeat' split at h
    all_goals
      first
        | exact Except.noConfusion h
        | (rw [Except.ok.injEq, Prod.mk.injEq] at h; exact h.1.symm)
  subst hst
  constructor
  · rfl
  · intro hn
    simp [nextCursors, hn, pyTruthy]

/-- C3 (witness): concrete instantiation of the cursor-update law. -/
theorem cursor_update_witness :
    (CrawlState.mk (some (.str "3")) none).since_id
      = (if pyTruthy (objGet? respNewest3.pagination "newest_id")
         then objGet? respNewest3.pagination "newest_id"
         else (CrawlState.mk (some (.str "5")) none).since_id) :=
  (cursor_update ⟨some (.str "5"), none⟩ respNewest3 0 1 ⟨some (.str "3"), none⟩
    [.sleepFor 1, .emit respNewest3] rfl).1

/-- C4 (counterexample). In a successful iteration the sleep happens before
the yield: the concrete step below produces the trace
`[sleepFor 7, emit …]` — exactly one step is emitted, but not before the
inter-step wait, contradicting the claimed emit-then-sleep order. -/
theorem emit_after_sleep :
    crawlStep ⟨none, none⟩ (.ok respPlain) 0 7
      = .ok (⟨none, none⟩, [.sleepFor 7, .emit respPlain]) ∧
    traceEmits [Event.sleepFor 7, Event.emit respPlain] = 1 ∧
    emitsBeforeSleeping [Event.sleepFor 7, Event.emit respPlain] = false :=
  ⟨rfl, rfl, rfl⟩

/-- C4 (amended). In every successful iteration whose computed wait is
non-negative, the engine first performs the wait and then emits the step;
the consumer's log append for the step (one `crawl_step` record plus its
`post` records) therefore happens once per completed step, after the
inter-step wait, never before it. -/
theorem sleep_then_emit (st : CrawlState) (r : Response) (now delay ts : Int)
    (hw : 0 ≤ (if r.rate_limit.remaining = 0 then r.rate_limit.reset - now + 10 else delay)) :
    crawlStep st (.ok r) now delay
      = .ok (nextCursors st r,
          [.sleepFor (if r.rate_limit.remaining = 0 then r.rate_limit.reset - now + 10 else delay),
           .emit r]) ∧
    logAppendOf
        [.sleepFor (if r.rate_limit.remaining = 0 then r.rate_limit.reset - now + 10 else delay),
         .emit r] ts
      = stepRecords ts r ∧
    emitsBeforeSleeping
        [.sleepFor (if r.rate_limit.remaining = 0 then r.rate_limit.reset - now + 10 else delay),
         .emit r] = false := by
  refine ⟨?_, ?_, rfl⟩
  · simp only [crawlStep]
    rw [if_neg (by omega)]
  · simp [logAppendOf]

/-- C4 (witness): concrete instantiation of the wait-then-emit law. -/
theorem sleep_then_emit_witness :
    crawlStep ⟨none, none⟩ (.ok respPlain) 0 7
      = .ok (nextCursors ⟨none, none⟩ respPlain,
          [.sleepFor (if respPlain.rate_limit.remaining = 0
                      then respPlain.rate_limit.reset - 0 + 10 else 7),
           .emit respPlain]) :=
  (sleep_then_emit ⟨none, none⟩ respPlain 0 7 0 (by norm_num [respPlain])).1

/-- C5. Error policy of the crawl loop: every failed request (network error,
`ApiError`, any exception) is caught; the iteration reports the error on
stderr, sleeps exactly `delay` seconds ignoring the rate-limit state, emits
no step, and returns normally (the loop continues) with both cursors
unchanged. -/
theorem error_policy (st : CrawlState) (e : PyErr) (now delay : Int)
    (hd : 0 ≤ delay) :
    crawlStep st (.error e) now delay = .ok (st, [.errorReport, .sleepFor delay]) ∧
    traceEmits [Event.errorReport, Event.sleepFor delay] = 0 := by
  constructor
  · simp only [crawlStep]
    rw [if_neg (by omega)]
  · rfl

/-- C5 (witness): a concrete network failure is swallowed and retried. -/
theorem error_policy_witness :
    crawlStep ⟨some (.str "8"), some (.str "tok")⟩ (.error .netError) 50 10
      = .ok (⟨some (.str "8"), some (.str "tok")⟩, [.errorReport, .sleepFor 10]) ∧
    traceEmits [Event.errorReport, Event.sleepFor 10] = 0 :=
  error_policy ⟨some (.str "8"), some (.str "tok")⟩ .netError 50 10 (by norm_num)

/-- Last element of a list is a member. -/
theorem mem_of_getLast?_eq {α : Type} {l : List α} {a : α}
    (h : l.getLast? = some a) : a ∈ l := by
  induction l with
  | nil => simp at h
  | cons x xs ih =>
    cases xs with
    | nil =>
        simp only [List.getLast?_singleton] at h
        exact List.mem_singleton.mpr (Option.some.inj h).symm
    | cons y ys =>
        rw [List.getLast?_cons_cons] at h
        exact List.mem_cons_of_mem x (ih h)

/-- C1. Resume-from-log over a prior persistence log (lines are records or
truncated writes, and persisted `crawl_step` records carry mapping-valued
`pagination` fields): malformed lines are skipped; when a last `crawl_step`
record exists the scan reconstructs `(since_id, next_token)` as the
`newest_id` and `next_token` of its `pagination`; the scan fails — with the
no-crawl-step `ValueError` — exactly when the log contains no `crawl_step`
record; and the reconstruction is deterministic. -/
theorem resume_from_log (lines : List Line)
    (hrec : ∀ l ∈ lines, lineIsRecord l = true)
    (hpag : ∀ o ∈ parsedObjs lines, isType o "crawl_step" = true → pagObjOk o = true) :
    (∀ o, lastCrawlStep lines = some o →
       resumeScan lines
         = .ok (objGet? (pagFieldsOf o) "newest_id", objGet? (pagFieldsOf o) "next_token")) ∧
    (lastCrawlStep lines = none → resumeScan lines = .error .noCrawlStep) ∧
    (∀ p q, resumeScan lines = .ok p → resumeScan lines = .ok q → p = q) := by
  have heq : resumeScan lines = resumeFinish (lastCrawlStep lines) := by
    rw [resumeScan, resumeScanAux_eq lines hrec none]
    unfold lastOr lastCrawlStep
    rw [foldl_overwrite]
    cases ((parsedObjs lines).filter fun o => isType o "crawl_step").getLast? <;> rfl
  refine ⟨?_, ?_, ?_⟩
  · intro o ho
    rw [heq, ho]
    have hmem : o ∈ (parsedObjs lines).filter fun o => isType o "crawl_step" :=
      mem_of_getLast?_eq ho
    have hcs : isType o "crawl_step" = true := (List.mem_filter.mp hmem).2
    have hobj := hpag o (List.mem_filter.mp hmem).1 hcs
    cases hm : objGetD o "pagination" (.obj []) with
    | obj p =>
        have h1 : resumeFinish (some o)
            = .ok (objGet? p "newest_id", objGet? p "next_token") := by
          simp [resumeFinish, hm]
        have h2 : pagFieldsOf o = p := by
          simp [pagFieldsOf, hm]
        rw [h1, h2]
    | null => exact absurd hobj (by simp [pagObjOk, hm])
    | bool b => exact absurd hobj (by simp [pagObjOk, hm])
    | num n => exact absurd hobj (by simp [pagObjOk, hm])
    | str s => exact absurd hobj (by simp [pagObjOk, hm])
    | arr xs => exact absurd hobj (by simp [pagObjOk, hm])
  · intro hn
    rw [heq, hn]
    rfl
  · intro p q h1 h2
    rw [h1] at h2
    exact Except.ok.inj h2

/-- C1 (witness): resuming from a concrete log containing one truncated line,
one crawl step and one post reconstructs that step's cursors. -/
theorem resume_from_log_witness :
    resumeScan resumeWLog = .ok (some (.str "9"), some (.str "t")) :=
  (resume_from_log resumeWLog (by decide) (by decide)).1 resumeWObj rfl

/-- Inserting a malformed line does not change the resume scan. -/
theorem resumeScanAux_malformed (pre post : List Line) :
    ∀ last, resumeScanAux last (pre ++ .malformed :: post)
      = resumeScanAux last (pre ++ post) := by
  induction pre with
  | nil => intro last; rfl
  | cons hd tl ih =>
    intro last
    cases hd with
    | malformed =>
        simp only [List.cons_append, resumeScanAux]
        exact ih last
    | val v =>
        cases v with
        | obj o =>
            simp only [List.cons_append, resumeScanAux]
            exact ih _
        | null => rfl
        | bool b => rfl
        | num n => rfl
        | str s => rfl
        | arr xs => rfl

/-- Inserting a malformed line does not change the author collection. -/
theorem collectAuthorsAux_malformed (pre post : List Line) :
    ∀ acc, collectAuthorsAux acc (pre ++ .malformed :: post)
      = collectAuthorsAux acc (pre ++ post) := by
  induction pre with
  | nil => intro acc; rfl
  | cons hd tl ih =>
    intro acc
    cases hd with
    | malformed =>
        simp only [List.cons_append, collectAuthorsAux]
        exact ih acc
    | val v =>
        cases v with
        | obj o =>
            by_cases hp : isType o "post" = true
            · cases hm : objGetD o "data" (.obj []) with
              | obj d =>
                  cases hid : objGet? d "author_id" with
                  | some v =>
                      simp only [List.cons_append]
                      simp [collectAuthorsAux, hp, hm, hid]
                      exact ih _
                  | none =>
                      simp only [List.cons_append]
                      simp [collectAuthorsAux, hp, hm, hid]
                      exact ih _
              | arr xs =>
                  by_cases hx : xs.any (fun x => beqJ x (.str "author_id")) = true
                  · simp only [List.cons_append]
                    simp [collectAuthorsAux, hp, hm, hx]
                  · simp only [List.cons_append]
                    simp [collectAuthorsAux, hp, hm, hx]
                    exact ih _
              | str s =>
                  by_cases hx : hasSubstr s "author_id" = true
                  · simp only [List.cons_append]
                    simp [collectAuthorsAux, hp, hm, hx]
                  · simp only [List.cons_append]
                    simp [collectAuthorsAux, hp, hm, hx]
                    exact ih _
              | null =>
                  simp only [List.cons_append]
                  simp [collectAuthorsAux, hp, hm]
              | bool b =>
                  simp only [List.cons_append]
                  simp [collectAuthorsAux, hp, hm]
              | num n =>
                  simp only [List.cons_append]
                  simp [collectAuthorsAux, hp, hm]
            · simp only [List.cons_append]
              simp [collectAuthorsAux, hp]
              exact ih _
        | null => rfl
        | bool b => rfl
        | num n => rfl
        | str s => rfl
        | arr xs => rfl

/-- Inserting a malformed line does not change the enrichment rewrite. -/
theorem enrichPass2_malformed (info : List (String × JsonV)) (pre post : List Line) :
    enrichPass2 info (pre ++ .malformed :: post) = enrichPass2 info (pre ++ post) := by
  induction pre with
  | nil => rfl
  | cons hd tl ih =>
    cases hd with
    | malformed =>
        simp only [List.cons_append, enrichPass2]
        exact ih
    | val v =>
        cases v with
        | obj o =>
            cases hre : enrichRecordE info o with
            | error e => simp [List.cons_append, enrichPass2, hre]
            | ok o' => simp [List.cons_append, enrichPass2, hre, ih]
        | null => rfl
        | bool b => rfl
        | num n => rfl
        | str s => rfl
        | arr xs => rfl

/-- Inserting a malformed line does not change the export collection. -/
theorem csvCollect_malformed (pre post : List Line) :
    csvCollect (pre ++ .malformed :: post) = csvCollect (pre ++ post) := by
  induction pre with
  | nil => rfl
  | cons hd tl ih =>
    cases hd with
    | malformed =>
        simp only [List.cons_append, csvCollect]
        exact ih
    | val v =>
        cases v with
        | obj o =>
            by_cases hp : isType o "post" = true
            · cases hm : objGetD o "data" (.obj []) with
              | obj p =>
                  simp only [List.cons_append]
                  simp [csvCollect, hp, hm, ih]
              | null =>
                  simp only [List.cons_append]
                  simp [csvCollect, hp, hm]
              | bool b =>
                  simp only [List.cons_append]
                  simp [csvCollect, hp, hm]
              | num n =>
                  simp only [List.cons_append]
                  simp [csvCollect, hp, hm]
              | str s =>
                  simp only [List.cons_append]
                  simp [csvCollect, hp, hm]
              | arr xs =>
                  simp only [List.cons_append]
                  simp [csvCollect, hp, hm]
            · simp only [List.cons_append]
              simp [csvCollect, hp]
              exact ih
        | null => rfl
        | bool b => rfl
        | num n => rfl
        | str s => rfl
        | arr xs => rfl

/-- C6. Malformed-line tolerance of every read pass: inserting one
unparseable line anywhere in a log leaves the resume scan, the enrichment
collection pass, the enrichment rewrite pass, the export collection and the
whole tabular export with exactly the same result as the log without that
line — in particular a malformed line never causes any read to fail. -/
theorem malformed_line_tolerance (pre post : List Line) :
    resumeScan (pre ++ .malformed :: post) = resumeScan (pre ++ post) ∧
    collectAuthors (pre ++ .malformed :: post) = collectAuthors (pre ++ post) ∧
    (∀ info, enrichPass2 info (pre ++ .malformed :: post) = enrichPass2 info (pre ++ post)) ∧
    csvCollect (pre ++ .malformed :: post) = csvCollect (pre ++ post) ∧
    jsonl_to_csv (pre ++ .malformed :: post) = jsonl_to_csv (pre ++ post) := by
  have hcsv := csvCollect_malformed pre post
  refine ⟨resumeScanAux_malformed pre post none, collectAuthorsAux_malformed pre post [],
    fun info => enrichPass2_malformed info pre post, hcsv, ?_⟩
  simp only [jsonl_to_csv, hcsv]

set_option maxRecDepth 4000 in
/-- C7. Batch partitioning of the enrichment pass: for `n` collected author
identifiers the slicing loop issues exactly `⌈n / 100⌉` batch calls, each
over at most 100 identifiers, and the batches concatenate back to the
identifier list in its stable iteration order; 250 identifiers give exactly
3 calls of sizes 100, 100, 50. -/
theorem batch_partitioning :
    (∀ ids : List JsonV,
      (pyBatches ids).length = (ids.length + 99) / 100 ∧
      (∀ b ∈ pyBatches ids, b.length ≤ 100) ∧
      (pyBatches ids).flatten = ids) ∧
    (pyBatches ids250).map List.length = [100, 100, 50] := by
  constructor
  · intro ids
    refine ⟨?_, ?_, pyBatches_flatten ids⟩
    · simp [pyBatches, List.length_range']
    · intro b hb
      simp only [pyBatches, List.mem_map] at hb
      obtain ⟨i, hi, hbi⟩ := hb
      rw [← hbi]
      exact List.length_take_le 100 _
  · decide

/-- C7 (witness): concrete instantiation of the at-most-100 batch bound. -/
theorem batch_partitioning_witness :
    ([JsonV.num 0] : List JsonV).length ≤ 100 :=
  (batch_partitioning.1 [JsonV.num 0]).2.1 [JsonV.num 0] (by simp [pyBatches])

/-- C8 (counterexample). A well-formed log can already contain `author_data`
(the enrichment's own output format): enriching it again with an author map
that does not resolve `"a"` emits the post unchanged — so the output post
carries `author_data` although its author identifier is unresolved,
contradicting the claimed "author_data exactly when resolved / unresolved
posts emitted without author_data". -/
theorem enrich_stale_author_data :
    enrichPass2 [] [.val (.obj staleEnrichedRec)] = .ok [.obj staleEnrichedRec] ∧
    (objGet? staleEnrichedRec "author_data").isSome = true ∧
    authorLookup [] (objGet? [("author_id", JsonV.str "a")] "author_id") = none :=
  ⟨rfl, rfl, rfl⟩

/-- C8 (amended). The enrichment join is total on well-shaped logs and
frame-preserving: it succeeds and rewrites record-wise; every record's
`data` field is unchanged byte-for-byte, non-post records are written
through unchanged, every key other than `author_data` is unchanged, and a
post's `author_data` is the resolved author info when its identifier
resolves, and otherwise whatever `author_data` the input record already had
(absent for never-enriched logs). -/
theorem enrich_join (info : List (String × JsonV)) (lines : List Line)
    (h : ∀ l ∈ lines, enrichLineOk l = true) :
    enrichPass2 info lines
      = .ok ((parsedObjs lines).map fun o => .obj (enrichRecord info o)) ∧
    (∀ o : Obj, objGet? (enrichRecord info o) "data" = objGet? o "data") ∧
    (∀ o : Obj, isType o "post" = false → enrichRecord info o = o) ∧
    (∀ (o : Obj) (k : String), k ≠ "author_data" →
      objGet? (enrichRecord info o) k = objGet? o k) ∧
    (∀ (o : Obj) (d : Obj), isType o "post" = true → objGet? o "data" = some (.obj d) →
      objGet? (enrichRecord info o) "author_data"
        = match authorLookup info (objGet? d "author_id") with
          | some ai => some ai
          | none => objGet? o "author_data") := by
  refine ⟨enrichPass2_ok info lines h, ?_, ?_, ?_, ?_⟩
  · intro o
    by_cases hp : isType o "post" = true
    · cases hm : objGet? o "data" with
      | none => simp [enrichRecord, hp, hm]
      | some d =>
          cases d with
          | obj dd =>
              cases hl : authorLookup info (objGet? dd "author_id") with
              | some ai =>
                  simp [enrichRecord, hp, hm, hl,
                    objGet?_objSet_ne o "author_data" "data" ai (by decide)]
              | none => simp [enrichRecord, hp, hm, hl]
          | null => simp [enrichRecord, hp, hm]
          | bool b => simp [enrichRecord, hp, hm]
          | num n => simp [enrichRecord, hp, hm]
          | str s => simp [enrichRecord, hp, hm]
          | arr xs => simp [enrichRecord, hp, hm]
    · simp [enrichRecord, hp]
  · intro o hp
    simp [enrichRecord, hp]
  · intro o k hk
    by_cases hp : isType o "post" = true
    · cases hm : objGet? o "data" with
      | none => simp [enrichRecord, hp, hm]
      | some d =>
          cases d with
          | obj dd =>
              cases hl : authorLookup info (objGet? dd "author_id") with
              | some ai =>
                  simp [enrichRecord, hp, hm, hl,
                    objGet?_objSet_ne o "author_data" k ai (Ne.symm hk)]
              | none => simp [enrichRecord, hp, hm, hl]
          | null => simp [enrichRecord, hp, hm]
          | bool b => simp [enrichRecord, hp, hm]
          | num n => simp [enrichRecord, hp, hm]
          | str s => simp [enrichRecord, hp, hm]
          | arr xs => simp [enrichRecord, hp, hm]
    · simp [enrichRecord, hp]
  · intro o d hp hd
    cases hl : authorLookup info (objGet? d "author_id") with
    | some ai => simp [enrichRecord, hp, hd, hl, objGet?_objSet_self]
    | none => simp [enrichRecord, hp, hd, hl]

/-- C8 (witness): enriching a one-post crawl log with a resolved author
attaches that author's data alongside the unchanged original fields. -/
theorem enrich_join_witness :
    enrichPass2 enrichWInfo enrichWLog
      = .ok [.obj [("type", .str "post"), ("timestamp", .num 1),
                   ("data", .obj [("author_id", .str "a")]),
                   ("author_data", .obj [("follower_count", .num 42),
                                         ("username", .str "u")])]] :=
  (enrich_join enrichWInfo enrichWLog (by decide)).1

/-- C9 (counterexample). On a log with no post records the exporter does not
write a table at all: it fails with the no-posts `ValueError`, so "for every
log … writes a header row followed by one row per post" is false at this
input. -/
theorem export_requires_posts :
    jsonl_to_csv noPostsLog = .error .noPosts ∧ postCount noPostsLog = 0 :=
  ⟨rfl, rfl⟩

/-- C9 (amended). For every log with at least one post record: the exporter
keeps exactly the post records (one row each, in order), writes a header row
equal to the code-point-sorted union of all flattened column names followed
by the data rows, computes each post's `x_link` as the URL base followed by
the stringified `id` (shown for string ids on crawl-shaped posts), and in
particular the specification's two-post example yields exactly the claimed
table with 2 data rows. -/
theorem export_table (lines : List Line)
    (hfmt : ∀ l ∈ lines, exportLineOk l = true)
    (hpost : postCount lines ≠ 0) :
    jsonl_to_csv lines
      = .ok (fieldnamesOf (collectedPosts lines)
              :: (collectedPosts lines).map (rowOf (fieldnamesOf (collectedPosts lines))),
             (collectedPosts lines).length) ∧
    (collectedPosts lines).length = postCount lines ∧
    (∀ (o p : Obj) (s : String), Line.val (.obj o) ∈ lines → isType o "post" = true →
      objGetD o "data" (.obj []) = .obj p → objGet? o "author_data" = none →
      objGet? p "x_link" = none → objGet? p "id" = some (.str s) →
      objGet? (transformPost o p) "x_link" = some (.str (linkBase ++ s))) ∧
    jsonl_to_csv exLog
      = .ok ([["author_id", "id", "x_link"],
              ["a", "1", "https://x.com/i/web/status/1"],
              ["b", "2", "https://x.com/i/web/status/2"]], 2) := by
  have hcoll := csvCollect_ok lines hfmt
  have hlen := collectedPosts_length lines hfmt
  have hne : (collectedPosts lines).isEmpty = false := by
    cases hcp : collectedPosts lines with
    | nil =>
        rw [hcp] at hlen
        exact absurd hlen.symm (by simpa using hpost)
    | cons a as => rfl
  refine ⟨?_, hlen, ?_, ?_⟩
  · simp [jsonl_to_csv, hcoll, except_bind_ok, hne]
  · intro o p s hmem hpost' hdata had hx hid
    rw [transformPost_xlink o p had hx, hid]
    rfl
  · have hT1 : transformPost ex1rec ex1p
        = [("id", .str "1"), ("author_id", .str "a"),
           ("x_link", .str "https://x.com/i/web/status/1")] := by
      simp [transformPost, flatten_dict, flattenItems, dictOfItems, objSet, objGet?,
        objGetD, pyStrOpt, pyStr, linkBase, ex1rec, ex1p]
    have hT2 : transformPost ex2rec ex2p
        = [("id", .str "2"), ("author_id", .str "b"),
           ("x_link", .str "https://x.com/i/web/status/2")] := by
      simp [transformPost, flatten_dict, flattenItems, dictOfItems, objSet, objGet?,
        objGetD, pyStrOpt, pyStr, linkBase, ex2rec, ex2p]
    rw [show jsonl_to_csv exLog
        = .ok (fieldnamesOf [transformPost ex1rec ex1p, transformPost ex2rec ex2p]
                :: [rowOf (fieldnamesOf [transformPost ex1rec ex1p, transformPost ex2rec ex2p])
                      (transformPost ex1rec ex1p),
                    rowOf (fieldnamesOf [transformPost ex1rec ex1p, transformPost ex2rec ex2p])
                      (transformPost ex2rec ex2p)], 2) from rfl,
       hT1, hT2]
    rfl

/-- C9 (witness): the specification's round-trip example evaluated through
the amended theorem. -/
theorem export_table_witness :
    jsonl_to_csv exLog
      = .ok ([["author_id", "id", "x_link"],
              ["a", "1", "https://x.com/i/web/status/1"],
              ["b", "2", "https://x.com/i/web/status/2"]], 2) :=
  (export_table exLog (by decide) (by decide)).2.2.2

/-- C10 (counterexample). A post whose data lacks `id` but contains a literal
`x_link` field together with a nested mapping flattening to `x_link`: the
export succeeds and the post is exported as a row, but the later flattened
occurrence overwrites the computed link, so the `x_link` column is `"5"`,
not the claimed `https://x.com/i/web/status/None`. -/
theorem export_collision :
    objGet? pCollide "id" = none ∧
    jsonl_to_csv [postLineOf pCollide] = .ok ([["x_link"], ["5"]], 1) ∧
    ("5" : String) ≠ "https://x.com/i/web/status/None" := by
  refine ⟨rfl, ?_, by decide⟩
  have hT : transformPost (postRecOf pCollide) pCollide = [("x_link", .num 5)] := by
    simp [transformPost, flatten_dict, flattenItems, dictOfItems, objSet, objGet?,
      objGetD, pyStrOpt, pyStr, linkBase, pCollide, postRecOf]
  rw [show jsonl_to_csv [postLineOf pCollide]
      = .ok (fieldnamesOf [transformPost (postRecOf pCollide) pCollide]
              :: [rowOf (fieldnamesOf [transformPost (postRecOf pCollide) pCollide])
                    (transformPost (postRecOf pCollide) pCollide)], 1) from rfl,
     hT]
  rfl

/-- C10 (amended). For every post record whose data mapping lacks `id`, the
exporter does not fail: the post is exported as a row; and provided the data
does not itself carry a literal `x_link` field, the row's `x_link` column is
exactly the string `https://x.com/i/web/status/None` (the stringified
missing value). -/
theorem export_missing_id (p : Obj)
    (hid : objGet? p "id" = none) (hx : objGet? p "x_link" = none) :
    jsonl_to_csv [postLineOf p]
      = .ok ([fieldnamesOf [transformPost (postRecOf p) p],
              rowOf (fieldnamesOf [transformPost (postRecOf p) p])
                (transformPost (postRecOf p) p)], 1) ∧
    tableCell (fieldnamesOf [transformPost (postRecOf p) p])
        (rowOf (fieldnamesOf [transformPost (postRecOf p) p])
          (transformPost (postRecOf p) p))
        "x_link"
      = some "https://x.com/i/web/status/None" := by
  have had : objGet? (postRecOf p) "author_data" = none := rfl
  have hxl : objGet? (transformPost (postRecOf p) p) "x_link"
      = some (.str (linkBase ++ pyStrOpt (objGet? p "id"))) :=
    transformPost_xlink _ p had hx
  rw [hid] at hxl
  constructor
  · rfl
  · have hmem : "x_link" ∈ fieldnamesOf [transformPost (postRecOf p) p] := by
      unfold fieldnamesOf
      rw [mem_sortStrings]
      apply mem_distinctAux
      · show "x_link" ∈ [] ++ (transformPost (postRecOf p) p).map Prod.fst
        rw [List.nil_append]
        exact mem_keys_of_objGet? _ _ _ hxl
      · rfl
    rw [tableCell_rowOf _ _ _ hmem, hxl]
    rfl

/-- C10 (witness): a concrete id-less post exported with the literal
`None` link. -/
theorem export_missing_id_witness :
    tableCell
        (fieldnamesOf [transformPost (postRecOf [("author_id", JsonV.str "z")])
          [("author_id", JsonV.str "z")]])
        (rowOf
          (fieldnamesOf [transformPost (postRecOf [("author_id", JsonV.str "z")])
            [("author_id", JsonV.str "z")]])
          (transformPost (postRecOf [("author_id", JsonV.str "z")])
            [("author_id", JsonV.str "z")]))
        "x_link"
      = some "https://x.com/i/web/status/None" :=
  (export_missing_id [("author_id", JsonV.str "z")] rfl rfl).2

end Survival
